import Mathlib

/-!
Verification of the chezmoi reconciliation core against its specification.

Strings are modelled as lists of characters (`Str`).  Functions are
translated from the Go source (`cmd/config.go`, the TAR archive system and
the attribute-codec tests); components whose implementation is not part of
the visible source are modelled from the specification and marked as such
in their doc comments.
-/

set_option maxHeartbeats 1000000

abbrev Str := List Char

/-- `hasMark m s` is true when the marker `m` occurs at the start of `s`
(Go's `strings.HasPrefix s m`). -/
def hasMark : Str → Str → Bool
  | [], _ => true
  | _ :: _, [] => false
  | m :: ms, c :: cs => m == c && hasMark ms cs

/-- `dropMark m s` removes `m.length` characters from the start of `s`
(Go's `strings.TrimPrefix` once `hasMark` holds). -/
def dropMark (m s : Str) : Str := s.drop m.length

/-- `hasTail t s` is true when `t` occurs at the end of `s`
(Go's `strings.HasSuffix s t`). -/
def hasTail (t s : Str) : Bool := hasMark t.reverse s.reverse

/-- `dropTail s k` removes the final `k` characters of `s`
(Go's `strings.TrimSuffix` once `hasTail` holds). -/
def dropTail (s : Str) (k : Nat) : Str := s.take (s.length - k)

theorem hasMark_append (m r : Str) : hasMark m (m ++ r) = true := by
  induction m with
  | nil => rfl
  | cons c cs ih => simp [hasMark, ih]

theorem dropMark_append (m r : Str) : dropMark m (m ++ r) = r := by
  simp [dropMark]

theorem hasTail_append (a t : Str) : hasTail t (a ++ t) = true := by
  simp [hasTail, List.reverse_append, hasMark_append]

theorem dropTail_append (a t : Str) : dropTail (a ++ t) t.length = a := by
  simp [dropTail, List.take_left]

theorem hasMark_single {a : Char} {s : Str} (h : hasMark [a] s = true) :
    s = a :: s.tail := by
  cases s with
  | nil => simp [hasMark] at h
  | cons c cs =>
    simp [hasMark] at h
    simp [h]

/-! ## Attribute codec (C1)

The codec itself (`ParseDirAttributes`, `DirAttributes.SourceName`,
`ParseFileAttributes`, `FileAttributes.SourceName`) lives in the chezmoi
internal package, whose implementation file is not part of the visible
source; only its tests are.  The definitions below are therefore modelled
from the specification: a pure string decomposition with one marker for
each flag, markers emitted in one fixed canonical order, and a distinct
`dot_` marker for a literal leading dot in the target name. -/

def exactMark : Str := ['e', 'x', 'a', 'c', 't', '_']
def privateMark : Str := ['p', 'r', 'i', 'v', 'a', 't', 'e', '_']
def encryptedMark : Str := ['e', 'n', 'c', 'r', 'y', 'p', 't', 'e', 'd', '_']
def emptyMark : Str := ['e', 'm', 'p', 't', 'y', '_']
def executableMark : Str := ['e', 'x', 'e', 'c', 'u', 't', 'a', 'b', 'l', 'e', '_']
def onceMark : Str := ['o', 'n', 'c', 'e', '_']
def runMark : Str := ['r', 'u', 'n', '_']
def symlinkMark : Str := ['s', 'y', 'm', 'l', 'i', 'n', 'k', '_']
def dotMark : Str := ['d', 'o', 't', '_']
def templateSuffix : Str := ['.', 't', 'm', 'p', 'l']

/-- Modelled from the spec: attribute record for a source directory. -/
structure DirAttributes where
  Name : Str
  Exact : Bool
  Private : Bool
deriving DecidableEq, Repr

/-- Encoded form of the target-name portion: a literal leading dot is
represented by the distinct `dot_` marker. -/
def encodeName (name : Str) : Str :=
  if hasMark ['.'] name then dotMark ++ dropMark ['.'] name else name

/-- Decoding of the target-name portion: the `dot_` marker restores a
literal leading dot. -/
def decodeName (s : Str) : Str :=
  if hasMark dotMark s then '.' :: dropMark dotMark s else s

/-- Modelled from the spec: `DirAttributes.SourceName` emits the `exact_`
and `private_` markers in a fixed canonical order followed by the encoded
target name. -/
def DirAttributes.SourceName (da : DirAttributes) : Str :=
  (if da.Exact then exactMark else []) ++
  (if da.Private then privateMark else []) ++
  encodeName da.Name

/-- Modelled from the spec: `ParseDirAttributes` strips the recognized
markers in the same fixed order and restores a literal leading dot. -/
def ParseDirAttributes (sourceName : Str) : DirAttributes :=
  let p1 : Bool × Str :=
    if hasMark exactMark sourceName then (true, dropMark exactMark sourceName)
    else (false, sourceName)
  let p2 : Bool × Str :=
    if hasMark privateMark p1.2 then (true, dropMark privateMark p1.2)
    else (false, p1.2)
  { Name := decodeName p2.2, Exact := p1.1, Private := p2.1 }

/-- Syntactic validity of a directory target name: the name part must not
itself begin with a recognized marker (otherwise the encoding would be
ambiguous, which is exactly what "syntactically valid" excludes). -/
def validDirName (name : Str) : Bool :=
  !hasMark exactMark (encodeName name) &&
  !hasMark privateMark (encodeName name) &&
  (hasMark ['.'] name || !hasMark dotMark name)

theorem hasMark_exact_private (r : Str) :
    hasMark exactMark (privateMark ++ r) = false := by
  simp [exactMark, privateMark, hasMark]

theorem decodeName_encodeName {name : Str}
    (h : (hasMark ['.'] name || !hasMark dotMark name) = true) :
    decodeName (encodeName name) = name := by
  by_cases hd : hasMark ['.'] name = true
  · have hn : name = '.' :: name.tail := hasMark_single hd
    simp [encodeName, decodeName, hd, hasMark_append, dropMark_append, dropMark]
    exact hn.symm
  · have hm : hasMark dotMark name = false := by
      simp [hd] at h
      exact h
    simp [encodeName, decodeName, hd, hm]

theorem roundtrip_dir (da : DirAttributes) (h : validDirName da.Name = true) :
    ParseDirAttributes da.SourceName = da := by
  obtain ⟨name, exact, priv⟩ := da
  simp only [validDirName, Bool.and_eq_true, Bool.not_eq_true'] at h
  obtain ⟨⟨h1, h2⟩, h3⟩ := h
  have hdec : decodeName (encodeName name) = name := decodeName_encodeName h3
  cases exact <;> cases priv <;>
    simp [DirAttributes.SourceName, ParseDirAttributes, hasMark_append, dropMark_append,
      hasMark_exact_private, h1, h2, hdec]

/-- Modelled from the spec: the kind of a source file entry. -/
inductive SourceFileType where
  | file
  | script
  | symlink
deriving DecidableEq, Repr

/-- Modelled from the spec: attribute record for a source file. -/
structure FileAttributes where
  Name : Str
  Typ : SourceFileType
  Empty : Bool
  Encrypted : Bool
  Executable : Bool
  Once : Bool
  Private : Bool
  Template : Bool
deriving DecidableEq, Repr

/-- Modelled from the spec: `FileAttributes.SourceName` emits a type marker
(`run_` for scripts, `symlink_` for symlinks) or the file flag markers in a
fixed canonical order, then the encoded target name, then the template
suffix. -/
def FileAttributes.SourceName (fa : FileAttributes) : Str :=
  (match fa.Typ with
   | .file =>
     (if fa.Encrypted then encryptedMark else []) ++
     (if fa.Private then privateMark else []) ++
     (if fa.Empty then emptyMark else []) ++
     (if fa.Executable then executableMark else [])
   | .script => runMark ++ (if fa.Once then onceMark else [])
   | .symlink => symlinkMark) ++
  encodeName fa.Name ++
  (if fa.Template then templateSuffix else [])

/-- Strips the template suffix, returning the stripped name and whether the
suffix was present. -/
def stripTemplateSuffix (n : Str) : Str × Bool :=
  if hasTail templateSuffix n then (dropTail n templateSuffix.length, true)
  else (n, false)

/-- Modelled from the spec: `ParseFileAttributes` recognizes the type
marker, strips the flag markers in the canonical order, restores a literal
leading dot and strips the template suffix. -/
def ParseFileAttributes (sourceName : Str) : FileAttributes :=
  if hasMark runMark sourceName then
    let n1 := dropMark runMark sourceName
    let p : Bool × Str :=
      if hasMark onceMark n1 then (true, dropMark onceMark n1) else (false, n1)
    let t := stripTemplateSuffix (decodeName p.2)
    { Name := t.1, Typ := .script, Empty := false, Encrypted := false,
      Executable := false, Once := p.1, Private := false, Template := t.2 }
  else if hasMark symlinkMark sourceName then
    let t := stripTemplateSuffix (decodeName (dropMark symlinkMark sourceName))
    { Name := t.1, Typ := .symlink, Empty := false, Encrypted := false,
      Executable := false, Once := false, Private := false, Template := t.2 }
  else
    let q1 : Bool × Str :=
      if hasMark encryptedMark sourceName then (true, dropMark encryptedMark sourceName)
      else (false, sourceName)
    let q2 : Bool × Str :=
      if hasMark privateMark q1.2 then (true, dropMark privateMark q1.2) else (false, q1.2)
    let q3 : Bool × Str :=
      if hasMark emptyMark q2.2 then (true, dropMark emptyMark q2.2) else (false, q2.2)
    let q4 : Bool × Str :=
      if hasMark executableMark q3.2 then (true, dropMark executableMark q3.2) else (false, q3.2)
    let t := stripTemplateSuffix (decodeName q4.2)
    { Name := t.1, Typ := .file, Empty := q3.1, Encrypted := q1.1,
      Executable := q4.1, Once := false, Private := q2.1, Template := t.2 }

/-- The fully encoded name portion of a file source name (encoded target
name plus optional template suffix). -/
def encodedFileName (name : Str) (tmpl : Bool) : Str :=
  encodeName name ++ (if tmpl then templateSuffix else [])

/-- Syntactic validity of a file target name: the encoded name portion must
not itself begin with a recognized marker, and a name may only end with the
template suffix when the `Template` flag is set. -/
def validFileName (name : Str) (tmpl : Bool) : Bool :=
  !hasMark runMark (encodedFileName name tmpl) &&
  !hasMark symlinkMark (encodedFileName name tmpl) &&
  !hasMark encryptedMark (encodedFileName name tmpl) &&
  !hasMark privateMark (encodedFileName name tmpl) &&
  !hasMark emptyMark (encodedFileName name tmpl) &&
  !hasMark executableMark (encodedFileName name tmpl) &&
  !hasMark onceMark (encodedFileName name tmpl) &&
  (hasMark ['.'] name || !hasMark dotMark (encodedFileName name tmpl)) &&
  (tmpl || !hasTail templateSuffix name)

/-- Syntactic validity of a file attribute record: the name is valid and
flags that do not apply to the entry's type are unset. -/
def validFileAttributes (fa : FileAttributes) : Bool :=
  validFileName fa.Name fa.Template &&
  (match fa.Typ with
   | .file => !fa.Once
   | .script => !fa.Empty && !fa.Encrypted && !fa.Executable && !fa.Private
   | .symlink => !fa.Empty && !fa.Encrypted && !fa.Executable && !fa.Once && !fa.Private)

theorem hasMark_run_symlink (r : Str) : hasMark runMark (symlinkMark ++ r) = false := by
  simp [runMark, symlinkMark, hasMark]

theorem hasMark_run_encrypted (r : Str) : hasMark runMark (encryptedMark ++ r) = false := by
  simp [runMark, encryptedMark, hasMark]

theorem hasMark_run_private (r : Str) : hasMark runMark (privateMark ++ r) = false := by
  simp [runMark, privateMark, hasMark]

theorem hasMark_run_empty (r : Str) : hasMark runMark (emptyMark ++ r) = false := by
  simp [runMark, emptyMark, hasMark]

theorem hasMark_run_executable (r : Str) : hasMark runMark (executableMark ++ r) = false := by
  simp [runMark, executableMark, hasMark]

theorem hasMark_symlink_encrypted (r : Str) : hasMark symlinkMark (encryptedMark ++ r) = false := by
  simp [symlinkMark, encryptedMark, hasMark]

theorem hasMark_symlink_private (r : Str) : hasMark symlinkMark (privateMark ++ r) = false := by
  simp [symlinkMark, privateMark, hasMark]

theorem hasMark_symlink_empty (r : Str) : hasMark symlinkMark (emptyMark ++ r) = false := by
  simp [symlinkMark, emptyMark, hasMark]

theorem hasMark_symlink_executable (r : Str) : hasMark symlinkMark (executableMark ++ r) = false := by
  simp [symlinkMark, executableMark, hasMark]

theorem hasMark_encrypted_private (r : Str) : hasMark encryptedMark (privateMark ++ r) = false := by
  simp [encryptedMark, privateMark, hasMark]

theorem hasMark_encrypted_empty (r : Str) : hasMark encryptedMark (emptyMark ++ r) = false := by
  simp [encryptedMark, emptyMark, hasMark]

theorem hasMark_encrypted_executable (r : Str) : hasMark encryptedMark (executableMark ++ r) = false := by
  simp [encryptedMark, executableMark, hasMark]

theorem hasMark_private_empty (r : Str) : hasMark privateMark (emptyMark ++ r) = false := by
  simp [privateMark, emptyMark, hasMark]

theorem hasMark_private_executable (r : Str) : hasMark privateMark (executableMark ++ r) = false := by
  simp [privateMark, executableMark, hasMark]

theorem hasMark_empty_executable (r : Str) : hasMark emptyMark (executableMark ++ r) = false := by
  simp [emptyMark, executableMark, hasMark]

theorem stripTemplate_decode (name : Str) (tmpl : Bool)
    (hdot : (hasMark ['.'] name || !hasMark dotMark (encodedFileName name tmpl)) = true)
    (hsfx : (tmpl || !hasTail templateSuffix name) = true) :
    stripTemplateSuffix (decodeName (encodedFileName name tmpl)) = (name, tmpl) := by
  by_cases hd : hasMark ['.'] name = true
  · have hn : name = '.' :: name.tail := hasMark_single hd
    cases tmpl with
    | true =>
      have h1 : encodedFileName name true = dotMark ++ (name.tail ++ templateSuffix) := by
        simp [encodedFileName, encodeName, hd, dropMark, List.drop_one]
      have h2 : decodeName (encodedFileName name true) = name ++ templateSuffix := by
        rw [h1, decodeName]
        simp [hasMark_append, dropMark_append]
        conv_rhs => rw [hn]
        rfl
      rw [h2, stripTemplateSuffix]
      simp [hasTail_append, dropTail_append]
    | false =>
      have hs : hasTail templateSuffix name = false := by
        simpa using hsfx
      have h2 : decodeName (encodedFileName name false) = name := by
        have : encodedFileName name false = encodeName name := by
          simp [encodedFileName]
        rw [this]
        exact decodeName_encodeName (by simp [hd])
      rw [h2, stripTemplateSuffix, hs]
      simp
  · have hdm : hasMark dotMark (encodedFileName name tmpl) = false := by
      simp [hd] at hdot
      exact hdot
    cases tmpl with
    | true =>
      have hen1 : encodedFileName name true = name ++ templateSuffix := by
        simp [encodedFileName, encodeName, hd]
      rw [hen1] at hdm
      simp [hen1, decodeName, hdm, stripTemplateSuffix, hasTail_append, dropTail_append]
    | false =>
      have hs : hasTail templateSuffix name = false := by
        simpa using hsfx
      have hen0 : encodedFileName name false = name := by
        simp [encodedFileName, encodeName, hd]
      rw [hen0] at hdm
      simp [hen0, decodeName, hdm, stripTemplateSuffix, hs]

theorem roundtrip_file (fa : FileAttributes) (h : validFileAttributes fa = true) :
    ParseFileAttributes fa.SourceName = fa := by
  obtain ⟨name, typ, em, enc, ex, once, priv, tmpl⟩ := fa
  cases typ with
  | script =>
    simp only [validFileAttributes, validFileName, Bool.and_eq_true,
      Bool.not_eq_true'] at h
    obtain ⟨⟨⟨⟨⟨⟨⟨⟨⟨hrun, hsym⟩, henc⟩, hpriv⟩, hemp⟩, hexe⟩, honce⟩, hdot⟩, hsfx⟩,
      ⟨⟨hem2, henc2⟩, hexe2⟩, hpriv2⟩ := h
    subst hem2 henc2 hexe2 hpriv2
    have hst := stripTemplate_decode name tmpl hdot hsfx
    simp only [encodedFileName] at hst honce
    cases once <;>
      simp [FileAttributes.SourceName, ParseFileAttributes, hasMark_append,
        dropMark_append, List.append_assoc, hst, honce]
  | symlink =>
    simp only [validFileAttributes, validFileName, Bool.and_eq_true,
      Bool.not_eq_true'] at h
    obtain ⟨⟨⟨⟨⟨⟨⟨⟨⟨hrun, hsym⟩, henc⟩, hpriv⟩, hemp⟩, hexe⟩, honce⟩, hdot⟩, hsfx⟩,
      ⟨⟨⟨hem2, henc2⟩, hexe2⟩, honce2⟩, hpriv2⟩ := h
    subst hem2 henc2 hexe2 honce2 hpriv2
    have hst := stripTemplate_decode name tmpl hdot hsfx
    simp only [encodedFileName] at hst
    simp [FileAttributes.SourceName, ParseFileAttributes, hasMark_append,
      dropMark_append, List.append_assoc, hst, hasMark_run_symlink]
  | file =>
    simp only [validFileAttributes, validFileName, Bool.and_eq_true,
      Bool.not_eq_true'] at h
    obtain ⟨⟨⟨⟨⟨⟨⟨⟨⟨hrun, hsym⟩, henc⟩, hpriv⟩, hemp⟩, hexe⟩, honce⟩, hdot⟩, hsfx⟩, honce2⟩ := h
    subst honce2
    have hst := stripTemplate_decode name tmpl hdot hsfx
    simp only [encodedFileName] at hst hrun hsym henc hpriv hemp hexe
    cases enc <;> cases priv <;> cases em <;> cases ex <;>
      simp [FileAttributes.SourceName, ParseFileAttributes, hasMark_append,
        dropMark_append, List.append_assoc, hst, hrun, hsym, henc, hpriv, hemp, hexe,
        hasMark_run_encrypted, hasMark_run_private, hasMark_run_empty,
        hasMark_run_executable, hasMark_symlink_encrypted, hasMark_symlink_private,
        hasMark_symlink_empty, hasMark_symlink_executable, hasMark_encrypted_private,
        hasMark_encrypted_empty, hasMark_encrypted_executable, hasMark_private_empty,
        hasMark_private_executable, hasMark_empty_executable]

/-- C1: the attribute codec is a bijection on its domain: parsing the
encoded source name of every syntactically valid `DirAttributes` or
`FileAttributes` value yields the value back, and encoding the parse of
every canonically-encoded source name yields the name back byte-for-byte. -/
theorem c1_attribute_codec_bijection :
    (∀ da : DirAttributes, validDirName da.Name = true →
      ParseDirAttributes da.SourceName = da) ∧
    (∀ fa : FileAttributes, validFileAttributes fa = true →
      ParseFileAttributes fa.SourceName = fa) ∧
    (∀ s : Str, (∃ da : DirAttributes, validDirName da.Name = true ∧ da.SourceName = s) →
      (ParseDirAttributes s).SourceName = s) ∧
    (∀ s : Str, (∃ fa : FileAttributes, validFileAttributes fa = true ∧ fa.SourceName = s) →
      (ParseFileAttributes s).SourceName = s) := by
  refine ⟨roundtrip_dir, roundtrip_file, ?_, ?_⟩
  · rintro s ⟨da, hv, rfl⟩
    rw [roundtrip_dir da hv]
  · rintro s ⟨fa, hv, rfl⟩
    rw [roundtrip_file fa hv]

/-- Closed witness for C1 at the concrete inputs of the repository's codec
tests (`.dir` exact private; `.name` as an empty encrypted executable
private template file; a once script; a symlink). -/
theorem c1_attribute_codec_bijection_witness :
    ParseDirAttributes (DirAttributes.SourceName ⟨['.', 'd', 'i', 'r'], true, true⟩) =
      ⟨['.', 'd', 'i', 'r'], true, true⟩ ∧
    ParseFileAttributes (FileAttributes.SourceName
        ⟨['.', 'n', 'a', 'm', 'e'], .file, true, true, true, false, true, true⟩) =
      ⟨['.', 'n', 'a', 'm', 'e'], .file, true, true, true, false, true, true⟩ ∧
    ParseFileAttributes (FileAttributes.SourceName
        ⟨['n', 'a', 'm', 'e'], .script, false, false, false, true, false, false⟩) =
      ⟨['n', 'a', 'm', 'e'], .script, false, false, false, true, false, false⟩ ∧
    (ParseFileAttributes (FileAttributes.SourceName
        ⟨['.', 'n', 'a', 'm', 'e'], .symlink, false, false, false, false, false, false⟩)).SourceName =
      FileAttributes.SourceName
        ⟨['.', 'n', 'a', 'm', 'e'], .symlink, false, false, false, false, false, false⟩ := by
  refine ⟨?_, ?_, ?_, ?_⟩
  · exact c1_attribute_codec_bijection.1 _ (by decide)
  · exact c1_attribute_codec_bijection.2.1 _ (by decide)
  · exact c1_attribute_codec_bijection.2.1 _ (by decide)
  · exact c1_attribute_codec_bijection.2.2.2 _ ⟨_, by decide, rfl⟩

/-! ## Configuration, filesystem handles and the apply engine
(`cmd/config.go`)

The `vfs.FS` values threaded through `Config` are modelled as an inductive
`FS`: either the real filesystem or a read-only wrapper produced by
`vfs.NewReadOnlyFS`.  External collaborators (`getData`, `TargetState.
Populate`, `TargetState.Get`, `Entry.Apply`) are supplied as parameters or
modelled from the spec where noted. -/

/-- A filesystem handle: the real filesystem or the read-only adapter that
`vfs.NewReadOnlyFS` wraps around a handle. -/
inductive FS where
  | real : FS
  | readOnly (inner : FS) : FS
deriving DecidableEq, Repr

/-- Whether a handle is a read-only adapter (incapable of mutation). -/
def FS.isReadOnly : FS → Bool
  | .readOnly _ => true
  | .real => false

/-- Semantic version, as compared by the version gate (pre-release tags of
the external semver library are not modelled). -/
structure Semver where
  major : Nat
  minor : Nat
  patch : Nat
deriving DecidableEq, Repr

/-- `coreos/go-semver` `LessThan`: lexicographic on (major, minor, patch). -/
def Semver.LessThan (a b : Semver) : Bool :=
  decide (a.major < b.major) ||
  (decide (a.major = b.major) &&
    (decide (a.minor < b.minor) ||
      (decide (a.minor = b.minor) && decide (a.patch < b.patch))))

/-- Errors surfaced by the embedded `cmd/config.go` paths. -/
inductive CError where
  | versionTooOld (running required : Semver)
  | dataFailed
  | populateFailed
  | notInSourceState (arg : String)
  | getFailed (arg : String)
  | entryFailed (name : String)
  | batchFailed (failures : List String)
deriving DecidableEq, Repr

/-- Modelled from the spec: one entry of the target state.  `Apply` either
succeeds or fails with an error scoped to this entry; the outcome is the
entry's own datum, and the filesystem handle an `Apply` call receives is
recorded by the callers below. -/
structure Entry where
  name : String
  applyError : Option CError
deriving DecidableEq, Repr

/-- Modelled from the spec: `Entry.Apply` consults the read-only system for
comparison and performs mutations through the separate mutator; its outcome
is scoped to the entry. -/
def Entry.Apply (e : Entry) (_fs : FS) : Except CError Unit :=
  match e.applyError with
  | some err => .error err
  | none => .ok ()

/-- The aggregate target state (`chezmoi.TargetState`): destination
directory, optional minimum version and the ordered entries. -/
structure TargetState where
  DestDir : String
  MinVersion : Option Semver
  entries : List Entry
deriving DecidableEq, Repr

/-- Opaque value standing for Go's `interface{}` stored in the template
function registry. -/
structure FuncValue where
  id : Nat
deriving DecidableEq, Repr

/-- The fields of `cmd.Config` that the verified paths read. -/
structure Config where
  fs : FS
  DryRun : Bool
  Remove : Bool
  Follow : Bool
  templateFuncs : Option (List (String × FuncValue))
deriving DecidableEq, Repr

/-! ## Persistent idempotency store (C2) -/

/-- The subset of `bolt.Options` that `getPersistentState` manipulates. -/
structure BoltOptions where
  ReadOnly : Bool := false
deriving DecidableEq, Repr

/-- Modelled from the spec: the embedded transactional key-value store.  It
records whether it was opened read-only and its current contents, keyed by
(bucket, key). -/
structure BoltPersistentState where
  readOnly : Bool
  data : List ((String × String) × String)
deriving DecidableEq, Repr

/-- Error of a store operation. -/
inductive StoreError where
  | databaseReadOnly
deriving DecidableEq, Repr

/-- Modelled from the spec: `chezmoi.NewBoltPersistentState` opens the
store file (whose prior contents are `contents`) with the given options;
passing no options opens it writable. -/
def NewBoltPersistentState (options : Option BoltOptions)
    (contents : List ((String × String) × String)) : BoltPersistentState :=
  { readOnly := (options.getD {}).ReadOnly, data := contents }

/-- Modelled from the spec: a `Set` on a store opened read-only fails
loudly instead of silently succeeding; otherwise it durably records the
key-value pair in the bucket. -/
def BoltPersistentState.Set (s : BoltPersistentState) (bucket key value : String) :
    Except StoreError BoltPersistentState :=
  if s.readOnly then .error .databaseReadOnly
  else .ok { s with data := ((bucket, key), value) :: s.data }

/-- `Config.getPersistentState` (`cmd/config.go:410-419`): when the run is
a dry run the bolt `ReadOnly` option is forced to true, creating an empty
options value if none was passed. -/
def Config.getPersistentState (c : Config) (options : Option BoltOptions)
    (contents : List ((String × String) × String)) : BoltPersistentState :=
  let options :=
    if c.DryRun then some { options.getD {} with ReadOnly := true }
    else options
  NewBoltPersistentState options contents

/-! ## Target state construction and the version gate (C3, C6) -/

/-- The Go condition
`Version != nil && ts.MinVersion != nil && Version.LessThan(*ts.MinVersion)`. -/
def versionGateFails (version : Option Semver) (minVersion : Option Semver) : Bool :=
  match version, minVersion with
  | some v, some mv => v.LessThan mv
  | _, _ => false

/-- Result of `Config.getTargetState` together with the filesystem handle
that was handed to `TargetState.Populate` (if it was reached). -/
structure GetTargetStateTrace where
  populateHandle : Option FS
  result : Except CError TargetState
deriving Repr

/-- `Config.getTargetState` (`cmd/config.go:434-471`): wraps the real
filesystem in a read-only adapter, gathers the template data, populates the
target state from the source directory and applies the minimum-version
gate before returning the target state.  Data gathering and population are
external collaborators supplied as arguments. -/
def Config.getTargetState (c : Config) (version : Option Semver)
    (dataResult : Except CError Unit)
    (populate : FS → Except CError TargetState) : GetTargetStateTrace :=
  let fs := FS.readOnly c.fs
  match dataResult with
  | .error e => { populateHandle := none, result := .error e }
  | .ok () =>
    match populate fs with
    | .error e => { populateHandle := some fs, result := .error e }
    | .ok ts =>
      if versionGateFails version ts.MinVersion then
        { populateHandle := some fs,
          result := .error (.versionTooOld (version.getD ⟨0, 0, 0⟩)
            (ts.MinVersion.getD ⟨0, 0, 0⟩)) }
      else
        { populateHandle := some fs, result := .ok ts }

/-! ## Selective and batch apply (C4, C6) -/

/-- `Config.getEntries` (`cmd/config.go:391-408`): looks up each named
argument in the target state via `ts.Get(c.fs, targetPath)`; a lookup error
aborts, and a missing entry is reported as "not in source state". -/
def Config.getEntries (c : Config) (tsGet : FS → String → Except CError (Option Entry)) :
    List String → Except CError (List Entry)
  | [] => .ok []
  | arg :: rest =>
    match tsGet c.fs arg with
    | .error e => .error e
    | .ok none => .error (.notInSourceState arg)
    | .ok (some entry) =>
      match c.getEntries tsGet rest with
      | .error e => .error e
      | .ok entries => .ok (entry :: entries)

/-- Observable outcome of an apply pass: the names of the entries whose
`Apply` was invoked, the filesystem handles those calls received, and the
overall result. -/
structure ApplyTrace where
  attempted : List String
  handles : List FS
  result : Except CError Unit
deriving Repr

/-- The explicit-targets loop of `Config.applyArgs`
(`cmd/config.go:201-205`): each entry is applied in turn and the first
error is returned immediately. -/
def applyLoop (fs : FS) : List Entry → ApplyTrace
  | [] => { attempted := [], handles := [], result := .ok () }
  | e :: rest =>
    match e.Apply fs with
    | .error err => { attempted := [e.name], handles := [fs], result := .error err }
    | .ok () =>
      let t := applyLoop fs rest
      { attempted := e.name :: t.attempted, handles := fs :: t.handles,
        result := t.result }

/-- Outcome of a batch apply: every entry attempted, failures collected. -/
structure BatchTrace where
  attempted : List String
  failures : List String
deriving DecidableEq, Repr

/-- Modelled from the spec: batch application applies every entry in
order; a failure of one entry is reported and the loop continues with the
remaining entries (partial-failure semantics). -/
def batchApply (fs : FS) : List Entry → BatchTrace
  | [] => { attempted := [], failures := [] }
  | e :: rest =>
    let t := batchApply fs rest
    match e.Apply fs with
    | .ok () => { attempted := e.name :: t.attempted, failures := t.failures }
    | .error _ =>
      { attempted := e.name :: t.attempted, failures := e.name :: t.failures }

/-- Modelled from the spec: `TargetState.Apply` batch-applies all entries
of the target state with partial-failure semantics. -/
def TargetState.Apply (ts : TargetState) (fs : FS) : BatchTrace :=
  batchApply fs ts.entries

/-- `Config.applyArgs` (`cmd/config.go:177-207`): wraps the filesystem in a
read-only adapter, builds the target state, and either batch-applies the
whole target state (no named targets) or applies exactly the named entries,
aborting at the first error. -/
def Config.applyArgs (c : Config) (version : Option Semver)
    (dataResult : Except CError Unit)
    (populate : FS → Except CError TargetState)
    (tsGet : FS → String → Except CError (Option Entry))
    (args : List String) : ApplyTrace :=
  let fs := FS.readOnly c.fs
  match (c.getTargetState version dataResult populate).result with
  | .error e => { attempted := [], handles := [], result := .error e }
  | .ok ts =>
    if args.isEmpty then
      let bt := ts.Apply fs
      { attempted := bt.attempted, handles := [fs],
        result := if bt.failures.isEmpty then .ok () else .error (.batchFailed bt.failures) }
    else
      match c.getEntries tsGet args with
      | .error e => { attempted := [], handles := [], result := .error e }
      | .ok entries => applyLoop fs entries

/-! ## Template function registration (C7) -/

/-- Outcome of `Config.addTemplateFunc`: either a panic (fatal precondition
violation) or the updated configuration. -/
inductive AddTemplateFuncResult where
  | panicked (key : String)
  | ok (c : Config)
deriving DecidableEq, Repr

/-- `Config.addTemplateFunc` (`cmd/config.go:167-175`): allocates the
registry if it is nil, panics if the key is already registered, and
otherwise stores the key-value pair. -/
def Config.addTemplateFunc (c : Config) (key : String) (value : FuncValue) :
    AddTemplateFuncResult :=
  let funcs := c.templateFuncs.getD []
  if (funcs.lookup key).isSome then
    .panicked key
  else
    .ok { c with templateFuncs := some ((key, value) :: funcs) }

/-- C2: for every `Config` with `DryRun = true`, `getPersistentState`
opens the persistent idempotency store read-only (forcing the bolt
`ReadOnly` option to true, creating an empty options value if none was
passed), so any attempted write to the store during a dry run fails with
an error rather than silently succeeding. -/
theorem c2_dry_run_store_read_only (c : Config) (options : Option BoltOptions)
    (contents : List ((String × String) × String)) (h : c.DryRun = true) :
    (c.getPersistentState options contents).readOnly = true ∧
    ∀ bucket key value,
      (c.getPersistentState options contents).Set bucket key value =
        .error .databaseReadOnly := by
  have hro : (c.getPersistentState options contents).readOnly = true := by
    simp [Config.getPersistentState, NewBoltPersistentState, h]
  exact ⟨hro, fun bucket key value => by simp [BoltPersistentState.Set, hro]⟩

/-- Closed witness for C2: a dry-run configuration with no options passed
yields a read-only store whose writes fail. -/
theorem c2_dry_run_store_read_only_witness :
    (Config.getPersistentState ⟨FS.real, true, false, false, none⟩ none []).readOnly = true ∧
    (Config.getPersistentState ⟨FS.real, true, false, false, none⟩ none []).Set
      "script" "hash" "ran" = .error .databaseReadOnly := by
  obtain ⟨h1, h2⟩ :=
    c2_dry_run_store_read_only ⟨FS.real, true, false, false, none⟩ none [] rfl
  exact ⟨h1, h2 "script" "hash" "ran"⟩

/-- C3: if the source state declares a minimum version and the running
program's version is less than it, `getTargetState` returns a
version-mismatch error and no target state; with no minimum-version marker
no gate applies and the target state is returned. -/
theorem c3_version_gate (c : Config) (populate : FS → Except CError TargetState)
    (ts : TargetState) (v mv : Semver)
    (hpop : populate (FS.readOnly c.fs) = .ok ts) :
    (ts.MinVersion = some mv → v.LessThan mv = true →
      (c.getTargetState (some v) (.ok ()) populate).result =
        .error (.versionTooOld v mv)) ∧
    (ts.MinVersion = none →
      (c.getTargetState (some v) (.ok ()) populate).result = .ok ts) := by
  constructor
  · intro hmv hlt
    simp [Config.getTargetState, hpop, versionGateFails, hmv, hlt]
  · intro hmv
    simp [Config.getTargetState, hpop, versionGateFails, hmv]

/-- Closed witness for C3: running version 1.0.0 against a source state
requiring 2.0.0 fails with the version-mismatch error; with no
minimum-version marker the target state is returned. -/
theorem c3_version_gate_witness :
    (Config.getTargetState ⟨FS.real, false, false, false, none⟩ (some ⟨1, 0, 0⟩)
        (.ok ()) (fun _ => .ok ⟨"/home/user", some ⟨2, 0, 0⟩, []⟩)).result =
      .error (.versionTooOld ⟨1, 0, 0⟩ ⟨2, 0, 0⟩) ∧
    (Config.getTargetState ⟨FS.real, false, false, false, none⟩ (some ⟨1, 0, 0⟩)
        (.ok ()) (fun _ => .ok ⟨"/home/user", none, []⟩)).result =
      .ok ⟨"/home/user", none, []⟩ := by
  constructor
  · exact (c3_version_gate _ _ _ ⟨1, 0, 0⟩ ⟨2, 0, 0⟩ rfl).1 rfl (by decide)
  · exact (c3_version_gate _ _ _ ⟨1, 0, 0⟩ ⟨2, 0, 0⟩ rfl).2 rfl

theorem applyLoop_first_error (fs : FS) (pre : List Entry) (e : Entry)
    (post : List Entry) (err : CError)
    (hpre : ∀ p ∈ pre, p.applyError = none) (he : e.applyError = some err) :
    applyLoop fs (pre ++ e :: post) =
      { attempted := pre.map Entry.name ++ [e.name],
        handles := List.replicate (pre.length + 1) fs,
        result := .error err } := by
  induction pre with
  | nil => simp [applyLoop, Entry.Apply, he]
  | cons p ps ih =>
    have hp : p.applyError = none := hpre p (by simp)
    have ih' := ih (fun q hq => hpre q (by simp [hq]))
    simp [applyLoop, Entry.Apply, hp, ih', List.replicate_succ]

/-- The names of the entries whose individual apply fails. -/
def failingNames (es : List Entry) : List String :=
  (es.filter (fun e => e.applyError.isSome)).map Entry.name

theorem batchApply_all (fs : FS) (es : List Entry) :
    (batchApply fs es).attempted = es.map Entry.name ∧
    (batchApply fs es).failures = failingNames es := by
  induction es with
  | nil => simp [batchApply, failingNames]
  | cons e rest ih =>
    cases he : e.applyError with
    | none =>
      simp [batchApply, Entry.Apply, he, ih.1, ih.2, failingNames, List.filter_cons]
    | some err =>
      simp [batchApply, Entry.Apply, he, ih.1, ih.2, failingNames, List.filter_cons]

/-- C4: with an explicit non-empty list of named targets, the first entry
whose `Apply` fails aborts the run: its error is returned and no
subsequent named entry is applied.  In batch apply (no named targets)
every entry is attempted and per-entry failures are collected and
reported. -/
theorem c4_named_abort_batch_continue :
    (∀ (c : Config) (version : Option Semver) (dataResult : Except CError Unit)
        (populate : FS → Except CError TargetState)
        (tsGet : FS → String → Except CError (Option Entry))
        (args : List String) (ts : TargetState) (pre : List Entry) (e : Entry)
        (post : List Entry) (err : CError),
      (c.getTargetState version dataResult populate).result = .ok ts →
      args ≠ [] →
      c.getEntries tsGet args = .ok (pre ++ e :: post) →
      (∀ p ∈ pre, p.applyError = none) →
      e.applyError = some err →
      c.applyArgs version dataResult populate tsGet args =
        { attempted := pre.map Entry.name ++ [e.name],
          handles := List.replicate (pre.length + 1) (FS.readOnly c.fs),
          result := .error err }) ∧
    (∀ (c : Config) (version : Option Semver) (dataResult : Except CError Unit)
        (populate : FS → Except CError TargetState)
        (tsGet : FS → String → Except CError (Option Entry)) (ts : TargetState),
      (c.getTargetState version dataResult populate).result = .ok ts →
      (c.applyArgs version dataResult populate tsGet []).attempted =
          ts.entries.map Entry.name ∧
        (c.applyArgs version dataResult populate tsGet []).result =
          (if failingNames ts.entries = [] then .ok ()
           else .error (.batchFailed (failingNames ts.entries)))) := by
  constructor
  · intro c version dataResult populate tsGet args ts pre e post err
      hts hargs hentries hpre he
    have hne : args.isEmpty = false := by
      cases args with
      | nil => exact absurd rfl hargs
      | cons a rest => rfl
    simp [Config.applyArgs, hts, hne, hentries,
      applyLoop_first_error (FS.readOnly c.fs) pre e post err hpre he]
  · intro c version dataResult populate tsGet ts hts
    obtain ⟨hatt, hfail⟩ := batchApply_all (FS.readOnly c.fs) ts.entries
    constructor
    · simp [Config.applyArgs, hts, TargetState.Apply, hatt]
    · simp only [Config.applyArgs, hts, TargetState.Apply, List.isEmpty_nil, if_true]
      rw [hfail]
      by_cases hf : failingNames ts.entries = []
      · simp [hf]
      · simp [hf, List.isEmpty_iff]

/-- Closed witness for C4: with named targets `a b c` where `b` fails, only
`a` and `b` are attempted and `b`'s error is returned; in batch mode all
three entries are attempted. -/
theorem c4_named_abort_batch_continue_witness :
    Config.applyArgs ⟨FS.real, false, false, false, none⟩ none (.ok ())
        (fun _ => .ok ⟨"/d", none,
          [⟨"a", none⟩, ⟨"b", some (.entryFailed "b")⟩, ⟨"c", none⟩]⟩)
        (fun _ arg =>
          if arg = "a" then .ok (some ⟨"a", none⟩)
          else if arg = "b" then .ok (some ⟨"b", some (.entryFailed "b")⟩)
          else .ok (some ⟨"c", none⟩))
        ["a", "b", "c"] =
      { attempted := ["a", "b"],
        handles := [FS.readOnly FS.real, FS.readOnly FS.real],
        result := .error (.entryFailed "b") } ∧
    (Config.applyArgs ⟨FS.real, false, false, false, none⟩ none (.ok ())
        (fun _ => .ok ⟨"/d", none,
          [⟨"a", none⟩, ⟨"b", some (.entryFailed "b")⟩, ⟨"c", none⟩]⟩)
        (fun _ _ => .ok none) []).attempted = ["a", "b", "c"] := by
  constructor
  · exact c4_named_abort_batch_continue.1 ⟨FS.real, false, false, false, none⟩
      none (.ok ()) _ _ ["a", "b", "c"]
      ⟨"/d", none, [⟨"a", none⟩, ⟨"b", some (.entryFailed "b")⟩, ⟨"c", none⟩]⟩
      [⟨"a", none⟩] ⟨"b", some (.entryFailed "b")⟩ [⟨"c", none⟩]
      (.entryFailed "b") rfl (by simp) rfl (by decide) rfl
  · exact (c4_named_abort_batch_continue.2 ⟨FS.real, false, false, false, none⟩
      none (.ok ())
      (fun _ => .ok ⟨"/d", none,
        [⟨"a", none⟩, ⟨"b", some (.entryFailed "b")⟩, ⟨"c", none⟩]⟩)
      (fun _ _ => .ok none)
      ⟨"/d", none, [⟨"a", none⟩, ⟨"b", some (.entryFailed "b")⟩, ⟨"c", none⟩]⟩ rfl).1

theorem applyLoop_handles (fs : FS) (es : List Entry) (p : FS → Bool)
    (hp : p fs = true) : (applyLoop fs es).handles.all p = true := by
  induction es with
  | nil => simp [applyLoop]
  | cons e rest ih =>
    cases he : e.applyError with
    | some err => simp [applyLoop, Entry.Apply, he, hp]
    | none => simp [applyLoop, Entry.Apply, he, hp, ih]

/-- C6: every filesystem handle that `applyArgs` hands to diff-computation
(`Entry.Apply` / `TargetState.Apply`) and that `getTargetState` hands to
`TargetState.Populate` is wrapped in the read-only adapter
(`vfs.NewReadOnlyFS`) before being passed on. -/
theorem c6_read_only_adapter :
    (∀ (c : Config) (version : Option Semver) (dataResult : Except CError Unit)
        (populate : FS → Except CError TargetState)
        (tsGet : FS → String → Except CError (Option Entry))
        (args : List String),
      (c.applyArgs version dataResult populate tsGet args).handles.all
        FS.isReadOnly = true) ∧
    (∀ (c : Config) (version : Option Semver) (dataResult : Except CError Unit)
        (populate : FS → Except CError TargetState),
      (c.getTargetState version dataResult populate).populateHandle.all
        FS.isReadOnly = true) := by
  constructor
  · intro c version dataResult populate tsGet args
    rcases hres : (c.getTargetState version dataResult populate).result with e | ts
    · simp [Config.applyArgs, hres]
    · by_cases hargs : args.isEmpty = true
      · simp [Config.applyArgs, hres, hargs, FS.isReadOnly]
      · rcases hge : c.getEntries tsGet args with e | entries
        · simp [Config.applyArgs, hres, hargs, hge]
        · simp [Config.applyArgs, hres, hargs, hge,
            applyLoop_handles (FS.readOnly c.fs) entries FS.isReadOnly rfl]
  · intro c version dataResult populate
    cases dataResult with
    | error e => simp [Config.getTargetState]
    | ok u =>
      cases u
      rcases hpop : populate (FS.readOnly c.fs) with e | ts
      · simp [Config.getTargetState, hpop, FS.isReadOnly]
      · by_cases hg : versionGateFails version ts.MinVersion = true
        · simp [Config.getTargetState, hpop, hg, FS.isReadOnly]
        · simp only [Bool.not_eq_true] at hg
          simp [Config.getTargetState, hpop, hg, FS.isReadOnly]

/-- C7: registering a template function under an already-registered name
panics (a fatal precondition violation); a fresh key is added to the
registry (allocated first if nil), so the panic branch is unreachable for
fresh keys. -/
theorem c7_add_template_func (c : Config) (key : String) (value : FuncValue) :
    (((c.templateFuncs.getD []).lookup key).isSome = true →
      c.addTemplateFunc key value = .panicked key) ∧
    (((c.templateFuncs.getD []).lookup key).isSome = false →
      c.addTemplateFunc key value =
        .ok { c with templateFuncs := some ((key, value) :: c.templateFuncs.getD []) } ∧
      ((key, value) :: c.templateFuncs.getD []).lookup key = some value) := by
  constructor
  · intro h
    simp [Config.addTemplateFunc, h]
  · intro h
    exact ⟨by simp [Config.addTemplateFunc, h], by simp [List.lookup]⟩

/-- Closed witness for C7: re-registering `join` panics; registering the
fresh key `lookPath` extends the registry. -/
theorem c7_add_template_func_witness :
    Config.addTemplateFunc ⟨FS.real, false, false, false, some [("join", ⟨1⟩)]⟩
        "join" ⟨2⟩ = .panicked "join" ∧
    Config.addTemplateFunc ⟨FS.real, false, false, false, some [("join", ⟨1⟩)]⟩
        "lookPath" ⟨2⟩ =
      .ok ⟨FS.real, false, false, false,
        some [("lookPath", ⟨2⟩), ("join", ⟨1⟩)]⟩ := by
  constructor
  · exact (c7_add_template_func ⟨FS.real, false, false, false, some [("join", ⟨1⟩)]⟩
      "join" ⟨2⟩).1 (by decide)
  · exact ((c7_add_template_func ⟨FS.real, false, false, false, some [("join", ⟨1⟩)]⟩
      "lookPath" ⟨2⟩).2 (by decide)).1

/-! ## Ignore matcher (C5)

The ignore matcher implementation is not under `src/`; it is modelled from
spec section 4.4: an ordered list of (pattern, negated) glob pairs where
the last matching pattern in file order decides, defaulting to "not
ignored". -/

/-- The suffixes of `s` reachable by consuming zero or more non-separator
characters from the front (the candidate remainders for a `*` element). -/
def nonSlashSuffixes : Str → List Str
  | [] => [[]]
  | c :: rest => (c :: rest) :: (if c = '/' then [] else nonSlashSuffixes rest)

/-- Modelled from the spec: glob matching with literal characters and `*`,
which matches a run of characters not crossing a path separator. -/
def globMatch : Str → Str → Bool
  | [], s => s.isEmpty
  | p :: ps, s =>
    if p = '*' then (nonSlashSuffixes s).any (fun r => globMatch ps r)
    else
      match s with
      | [] => false
      | c :: cs => p == c && globMatch ps cs

/-- Modelled from the spec: one ignore-file line, already split into the
glob pattern and whether it was negated with a leading `!`. -/
structure IgnorePattern where
  pattern : Str
  negated : Bool
deriving DecidableEq, Repr

/-- Modelled from the spec: `Match` scans the ordered pattern list and
returns the outcome of the last pattern that matches, starting from "not
ignored". -/
def ignoreMatch (patterns : List IgnorePattern) (path : Str) : Bool :=
  patterns.foldl
    (fun acc p => if globMatch p.pattern path then !p.negated else acc) false

theorem ignoreMatch_foldl (path : Str) (l : List IgnorePattern) (b : Bool) :
    l.foldl (fun acc p => if globMatch p.pattern path then !p.negated else acc) b =
      (match (l.filter (fun p => globMatch p.pattern path)).getLast? with
       | some p => !p.negated
       | none => b) := by
  induction l generalizing b with
  | nil => simp
  | cons p rest ih =>
    by_cases hp : globMatch p.pattern path = true
    · rw [List.foldl_cons, if_pos hp, ih, List.filter_cons_of_pos (by simpa using hp)]
      cases hfr : rest.filter (fun q => globMatch q.pattern path) with
      | nil => simp
      | cons x xs =>
        cases hgl : (x :: xs).getLast? with
        | some q => simp [hgl]
        | none => simp at hgl
    · rw [List.foldl_cons, if_neg hp, ih,
        List.filter_cons_of_neg (by simpa using hp)]

/-- C5: the ignore matcher returns the outcome of the last pattern in file
order that matches the path (true for a plain pattern, false for a negated
one) and false when no pattern matches; in particular for
`["foo/*", "!foo/keep.txt"]`, `foo/a.txt` is ignored and `foo/keep.txt` is
re-included. -/
theorem c5_ignore_last_match_wins :
    (∀ (patterns : List IgnorePattern) (path : Str),
      ignoreMatch patterns path =
        (match (patterns.filter (fun p => globMatch p.pattern path)).getLast? with
         | some p => !p.negated
         | none => false)) ∧
    ignoreMatch [⟨"foo/*".toList, false⟩, ⟨"foo/keep.txt".toList, true⟩]
      "foo/a.txt".toList = true ∧
    ignoreMatch [⟨"foo/*".toList, false⟩, ⟨"foo/keep.txt".toList, true⟩]
      "foo/keep.txt".toList = false := by
  refine ⟨fun patterns path => ignoreMatch_foldl path patterns false, ?_, ?_⟩
  · decide
  · decide

/-! ## UPPER_SNAKE_CASE to camelCase (C8) -/

/-- Go's `strings.Split(s, "_")`: the words of `s` separated by
underscores (always at least one word). -/
def splitOnUnderscore : Str → List Str
  | [] => [[]]
  | c :: rest =>
    if c = '_' then [] :: splitOnUnderscore rest
    else
      match splitOnUnderscore rest with
      | w :: ws => (c :: w) :: ws
      | [] => [[c]]

/-- Go's `strings.ToLower`, per character. -/
def toLowerStr (s : Str) : Str := s.map Char.toLower

/-- `titilize` (`cmd/config.go:584-590`): title-case the first rune and
keep the rest (`Char.toUpper` models `unicode.ToTitle`). -/
def titilize : Str → Str
  | [] => []
  | c :: rest => Char.toUpper c :: rest

/-- `wellKnownAbbreviations` (`cmd/config.go:122-127`). -/
def wellKnownAbbreviations : List Str :=
  ["ANSI".toList, "CPE".toList, "ID".toList, "URL".toList]

/-- `isWellKnownAbbreviation` (`cmd/config.go:572-575`). -/
def isWellKnownAbbreviation (word : Str) : Bool :=
  wellKnownAbbreviations.contains word

/-- `upperSnakeCaseToCamelCase` (`cmd/config.go:594-604`): the source's
indexed loop over the words, followed by `strings.Join(words, "")`. -/
def upperSnakeCaseToCamelCase (s : Str) : Str :=
  let words := splitOnUnderscore s
  (words.enum.map (fun iw =>
    if iw.1 = 0 then toLowerStr iw.2
    else if isWellKnownAbbreviation iw.2 then iw.2
    else titilize (toLowerStr iw.2))).flatten

/-- `upperSnakeCaseToCamelCaseMap` (`cmd/config.go:608-614`): rebuilds the
map converting every key and keeping every value. -/
def upperSnakeCaseToCamelCaseMap (m : List (Str × String)) : List (Str × String) :=
  match m with
  | [] => []
  | (k, v) :: rest => (upperSnakeCaseToCamelCase k, v) :: upperSnakeCaseToCamelCaseMap rest

/-- The claim's description of the transformation: split on underscores,
lowercase the first word, keep later well-known abbreviations unchanged,
title-case the lowercased form of every other later word, join with no
separator. -/
def camelCaseSpec (s : Str) : Str :=
  match splitOnUnderscore s with
  | [] => []
  | w :: ws =>
    (toLowerStr w ::
      ws.map (fun word =>
        if isWellKnownAbbreviation word then word
        else titilize (toLowerStr word))).flatten

theorem enumFrom_camel_map (ws : List Str) (n : Nat) (hn : n ≠ 0) :
    (ws.enumFrom n).map (fun iw =>
        if iw.1 = 0 then toLowerStr iw.2
        else if isWellKnownAbbreviation iw.2 then iw.2
        else titilize (toLowerStr iw.2)) =
      ws.map (fun word =>
        if isWellKnownAbbreviation word then word
        else titilize (toLowerStr word)) := by
  induction ws generalizing n with
  | nil => simp
  | cons w rest ih => simp [List.enumFrom, hn, ih (n + 1) (by omega)]

/-- C8: `upperSnakeCaseToCamelCase` splits on underscores, lowercases the
first word, leaves later well-known abbreviations (ANSI, CPE, ID, URL)
unchanged, title-cases the lowercased form of every other later word and
joins without separator; the map version converts every key and leaves
values unchanged. -/
theorem c8_upper_snake_case_to_camel_case :
    (∀ s : Str, upperSnakeCaseToCamelCase s = camelCaseSpec s) ∧
    (∀ m : List (Str × String), upperSnakeCaseToCamelCaseMap m =
      m.map (fun kv => (upperSnakeCaseToCamelCase kv.1, kv.2))) ∧
    upperSnakeCaseToCamelCase "PRETTY_NAME".toList = "prettyName".toList ∧
    upperSnakeCaseToCamelCase "BUG_REPORT_URL".toList = "bugReportURL".toList ∧
    upperSnakeCaseToCamelCase "CPE_NAME".toList = "cpeName".toList := by
  refine ⟨?_, ?_, by decide, by decide, by decide⟩
  · intro s
    unfold upperSnakeCaseToCamelCase camelCaseSpec
    cases hsplit : splitOnUnderscore s with
    | nil => simp
    | cons w ws =>
      simp [List.enum, List.enumFrom, enumFrom_camel_map ws 1 (by omega)]
  · intro m
    induction m with
    | nil => rfl
    | cons kv rest ih => simp [upperSnakeCaseToCamelCaseMap, ih]

/-! ## TAR archive system (C9, from the `TARSystem` source) -/

/-- TAR entry type flags used by the source (`tar.TypeDir`, `tar.TypeReg`,
`tar.TypeSymlink`). -/
inductive TarEntryType where
  | dir
  | reg
  | symlink
deriving DecidableEq, Repr

/-- The `tar.Header` fields the source sets; the remaining template fields
(uid, gid, times, ...) do not affect the verified behaviour. -/
structure TarHeader where
  typeflag : TarEntryType
  name : String
  size : Nat
  mode : Nat
  linkname : String
deriving DecidableEq, Repr

/-- One record written to the TAR stream: a header plus the data bytes
that follow it (empty for directories and symlinks). -/
structure TarRecord where
  header : TarHeader
  data : List Nat
deriving DecidableEq, Repr

/-- A `TARSystem`: the header template and the records written so far.
The underlying writer's IO errors are outside the model. -/
structure TARSystem where
  headerTemplate : TarHeader
  records : List TarRecord
deriving DecidableEq, Repr

/-- Go sentinel errors returned by the system. -/
inductive GoError where
  | errPermission
deriving DecidableEq, Repr

/-- `TARSystem.Chmod`: returns `os.ErrPermission` for every input. -/
def TARSystem.Chmod (_s : TARSystem) (_name : String) (_mode : Nat) :
    Except GoError TARSystem := .error .errPermission

/-- `TARSystem.RemoveAll`: returns `os.ErrPermission` for every input. -/
def TARSystem.RemoveAll (_s : TARSystem) (_name : String) :
    Except GoError TARSystem := .error .errPermission

/-- `TARSystem.Rename`: returns `os.ErrPermission` for every input. -/
def TARSystem.Rename (_s : TARSystem) (_oldpath _newpath : String) :
    Except GoError TARSystem := .error .errPermission

/-- `TARSystem.Mkdir`: writes a directory header with a trailing slash. -/
def TARSystem.Mkdir (s : TARSystem) (name : String) (perm : Nat) :
    Except GoError TARSystem :=
  .ok { s with records := s.records ++
    [⟨{ s.headerTemplate with
        typeflag := .dir
        name := name ++ "/"
        mode := perm }, []⟩] }

/-- `TARSystem.WriteFile`: writes a regular-file header followed by the
data bytes. -/
def TARSystem.WriteFile (s : TARSystem) (filename : String) (data : List Nat)
    (perm : Nat) : Except GoError TARSystem :=
  .ok { s with records := s.records ++
    [⟨{ s.headerTemplate with
        typeflag := .reg
        name := filename
        size := data.length
        mode := perm }, data⟩] }

/-- `TARSystem.RunScript`: writes the script body into the archive via
`WriteFile` with mode `0o700` instead of executing it. -/
def TARSystem.RunScript (s : TARSystem) (name : String) (data : List Nat) :
    Except GoError TARSystem :=
  s.WriteFile name data 0o700

/-- `TARSystem.WriteSymlink`: writes a symlink header. -/
def TARSystem.WriteSymlink (s : TARSystem) (oldname newname : String) :
    Except GoError TARSystem :=
  .ok { s with records := s.records ++
    [⟨{ s.headerTemplate with
        typeflag := .symlink
        name := newname
        linkname := oldname }, []⟩] }

/-- C9: the TAR archive backend never mutates in place and never executes
scripts: `Chmod`, `RemoveAll` and `Rename` return a permission-denied
error on every input, and `RunScript` writes the script body into the
archive as a regular file with mode `0o700` instead of executing it. -/
theorem c9_tar_system_read_only_backend :
    (∀ (s : TARSystem) (name : String) (mode : Nat),
      s.Chmod name mode = .error .errPermission) ∧
    (∀ (s : TARSystem) (name : String),
      s.RemoveAll name = .error .errPermission) ∧
    (∀ (s : TARSystem) (oldpath newpath : String),
      s.Rename oldpath newpath = .error .errPermission) ∧
    (∀ (s : TARSystem) (name : String) (data : List Nat),
      s.RunScript name data = s.WriteFile name data 0o700 ∧
      s.RunScript name data = .ok { s with records := s.records ++
        [⟨{ s.headerTemplate with
            typeflag := .reg
            name := name
            size := data.length
            mode := 0o700 }, data⟩] }) :=
  ⟨fun _ _ _ => rfl, fun _ _ => rfl, fun _ _ _ => rfl,
    fun _ _ _ => ⟨rfl, rfl⟩⟩

/-! ## Key validation (C10) -/

/-- `identifierRegexp` (`cmd/config.go:129`) is `\A[\pL_][\pL\p{Nd}_]*\z`:
a letter or underscore followed by letters, digits or underscores
(`Char.isAlpha`/`Char.isDigit` model the `\pL`/`\p{Nd}` classes). -/
def matchesIdentifier (s : String) : Bool :=
  match s.toList with
  | [] => false
  | c :: rest =>
    (c.isAlpha || c = '_') && rest.all (fun d => d.isAlpha || d.isDigit || d = '_')

/-- A Go `interface{}` datum as `validateKeys` discriminates it: a
string-keyed map, a slice, or any other value. -/
inductive Value where
  | scalar : Value
  | obj : List (String × Value) → Value
  | arr : List Value → Value
deriving Repr

/-- `validateKeys` (`cmd/config.go:617-636`): walks nested string-keyed
maps and slices; the first key failing the identifier pattern is returned
as the error, other values are accepted unconditionally. -/
def validateKeys : Value → Except String Unit
  | .scalar => .ok ()
  | .obj [] => .ok ()
  | .obj ((k, v) :: rest) =>
    if !matchesIdentifier k then .error k
    else
      match validateKeys v with
      | .error e => .error e
      | .ok () => validateKeys (.obj rest)
  | .arr [] => .ok ()
  | .arr (v :: rest) =>
    match validateKeys v with
    | .error e => .error e
    | .ok () => validateKeys (.arr rest)

/-- Every key of every map reached through nested maps and slices matches
the identifier pattern (the claim's acceptance condition). -/
def allKeysOk : Value → Bool
  | .scalar => true
  | .obj [] => true
  | .obj ((k, v) :: rest) =>
    matchesIdentifier k && allKeysOk v && allKeysOk (.obj rest)
  | .arr [] => true
  | .arr (v :: rest) => allKeysOk v && allKeysOk (.arr rest)

/-- The first key in traversal order that fails the identifier pattern. -/
def firstBadKey : Value → Option String
  | .scalar => none
  | .obj [] => none
  | .obj ((k, v) :: rest) =>
    if !matchesIdentifier k then some k
    else
      match firstBadKey v with
      | some e => some e
      | none => firstBadKey (.obj rest)
  | .arr [] => none
  | .arr (v :: rest) =>
    match firstBadKey v with
    | some e => some e
    | none => firstBadKey (.arr rest)

theorem match_option_error_iff (o : Option String) (e : String) :
    ((match o with
      | none => (Except.ok () : Except String Unit)
      | some k => Except.error k) = Except.error e) ↔ o = some e := by
  cases o <;> simp

theorem match_option_ok_iff (o : Option String) :
    ((match o with
      | none => (Except.ok () : Except String Unit)
      | some k => Except.error k) = Except.ok ()) ↔ o = none := by
  cases o <;> simp

theorem validateKeys_eq_firstBadKey (v : Value) :
    validateKeys v =
      (match firstBadKey v with
       | none => .ok ()
       | some k => .error k) := by
  induction v using validateKeys.induct <;>
    simp_all [validateKeys, firstBadKey, match_option_error_iff, match_option_ok_iff]

theorem firstBadKey_none_iff (v : Value) :
    firstBadKey v = none ↔ allKeysOk v = true := by
  induction v using firstBadKey.induct <;>
    simp_all [firstBadKey, allKeysOk]

/-- C10: `validateKeys` returns nil iff every key of every map reached by
recursing through nested string-keyed maps and slices matches the
identifier pattern; other values are accepted unconditionally, and the
first invalid key encountered is reported in the returned error. -/
theorem c10_validate_keys :
    (∀ v : Value, validateKeys v =
      (match firstBadKey v with
       | none => .ok ()
       | some k => .error k)) ∧
    (∀ v : Value, validateKeys v = .ok () ↔ allKeysOk v = true) ∧
    validateKeys .scalar = .ok () := by
  refine ⟨validateKeys_eq_firstBadKey, fun v => ?_, by simp [validateKeys]⟩
  rw [validateKeys_eq_firstBadKey v]
  rw [← firstBadKey_none_iff]
  cases firstBadKey v <;> simp
